import Mathlib

/-!
Verification of the Swapskill client read-model layer.

Shallow embedding of the repository's collection access functions
(src/lib/firestore.ts) and client state store (src/store/useFirebaseStore.ts).
Remote-store queries (getDocs/getDoc) are modelled by passing the relevant
collection contents as explicit lists; document field access follows the
Firestore semantics the code relies on (a missing field never matches an
equality filter; JS property access on a missing key yields undefined,
modelled as Option.none).  Optional document fields are Option-valued, with
none standing for both an absent field and a null value.
-/

namespace SkillSwap

/-! ### Skill and user documents (types in src/types, firestore.ts users/skills) -/

/-- A skill document as stored in the skills collection: owning user, the
directional type field ("offered" or "wanted"), and the category id used by
the category filters (skill.category.id in the source). -/
structure SkillDoc where
  id : String
  userId : String
  typ : String
  name : String
  categoryId : String
deriving DecidableEq

/-- A user document.  skillsOffered/skillsWanted hold the in-memory skill
records after the search functions overwrite the raw arrays with the per-user
skill query results; the raw id arrays are never read by the functions
embedded here. -/
structure UserDoc where
  id : String
  displayName : Option String
  bio : Option String
  location : Option String
  rating : Option ℚ
  reviewCount : Option Nat
  totalSwaps : Option Nat
  isVerified : Option Bool
  isBanned : Option Bool
  banReason : Option String
  bannedAt : Option Nat
  skillsOffered : List SkillDoc
  skillsWanted : List SkillDoc
deriving DecidableEq

/-- The N+1 skill population step shared by the search functions
(firestore.ts 116-129 and 168-181): fetch every skill owned by the user and
split it into the offered/wanted buckets by the skill's type field. -/
def populateSkills (skillsDb : List SkillDoc) (u : UserDoc) : UserDoc :=
  let skills := skillsDb.filter (fun s => s.userId == u.id)
  { u with
    skillsOffered := skills.filter (fun s => s.typ == "offered")
    skillsWanted := skills.filter (fun s => s.typ == "wanted") }

/-- Sort key used by every user-search result: the comparator
(b.rating || 0) - (a.rating || 0), i.e. descending rating with a missing
rating read as zero. -/
def ratingKey (u : UserDoc) : ℚ := u.rating.getD 0

/-- The descending-rating order produced by the comparator in
firestore.ts 132 and 201. -/
def byRatingDesc (a b : UserDoc) : Prop := ratingKey b ≤ ratingKey a

instance : DecidableRel byRatingDesc :=
  fun a b => inferInstanceAs (Decidable (ratingKey b ≤ ratingKey a))

instance : IsTotal UserDoc byRatingDesc :=
  ⟨fun a b => le_total (ratingKey b) (ratingKey a)⟩

instance : IsTrans UserDoc byRatingDesc :=
  ⟨fun _ _ _ hab hbc => le_trans hbc hab⟩

/-- Embedding of userService.searchUsers (firestore.ts 82-133).  The remote
query (limit 20 plus the optional category/location where-clauses) determines
the fetched page, passed here as a list; the in-memory part then drops banned
users unconditionally, drops unverified users when verifiedOnly is set,
populates each remaining user's skills, and sorts by descending rating. -/
def searchUsers (page : List UserDoc) (skillsDb : List SkillDoc) (verifiedOnly : Bool) :
    List UserDoc :=
  let users := page.filter (fun u =>
    !(u.isBanned == some true) && (!verifiedOnly || u.isVerified == some true))
  let users := users.map (populateSkills skillsDb)
  users.insertionSort byRatingDesc

/-- Embedding of userService.searchAllUsers (firestore.ts 136-138): delegates
to searchUsers with verifiedOnly set to false. -/
def searchAllUsers (page : List UserDoc) (skillsDb : List SkillDoc) : List UserDoc :=
  searchUsers page skillsDb false

/-- JS String.prototype.toLowerCase, character by character. -/
def lowerStr (s : String) : String := ⟨s.data.map Char.toLower⟩

/-- Check whether the needle occurs at the head of the haystack. -/
def matchesAt : List Char → List Char → Bool
  | [], _ => true
  | _ :: _, [] => false
  | a :: n, b :: h => a == b && matchesAt n h

/-- JS String.prototype.includes: the needle occurs somewhere in the
haystack. -/
def hasSub : List Char → List Char → Bool
  | [], n => n.isEmpty
  | c :: t, n => matchesAt n (c :: t) || hasSub t n

/-- String containment test used by the admin search's in-memory text
filters. -/
def strIncludes (hay needle : String) : Bool := hasSub hay.data needle.data

/-- Embedding of userService.searchAllUsersIncludingBanned (firestore.ts
141-202): fetch every user, apply the free-text and location filters in
memory without excluding banned users, populate skills, filter by skill
category, and sort by descending rating.  The category check inside the
population loop (183-189) ends in a bare continue and has no effect, so it is
not modelled. -/
def searchAllUsersIncludingBanned (allUsers : List UserDoc) (skillsDb : List SkillDoc)
    (searchQuery skillCategory location : Option String) : List UserDoc :=
  let users := match searchQuery with
    | none => allUsers
    | some q =>
      let lq := lowerStr q
      allUsers.filter (fun u =>
        (match u.displayName with | some d => strIncludes (lowerStr d) lq | none => false) ||
        (match u.bio with | some b => strIncludes (lowerStr b) lq | none => false) ||
        (match u.location with | some l => strIncludes (lowerStr l) lq | none => false))
  let users := match location with
    | none => users
    | some loc => users.filter (fun u =>
        match u.location with
        | some l => strIncludes (lowerStr l) (lowerStr loc)
        | none => false)
  let users := users.map (populateSkills skillsDb)
  let users := match skillCategory with
    | none => users
    | some c => users.filter (fun u =>
        (u.skillsOffered ++ u.skillsWanted).any (fun s => s.categoryId == c))
  users.insertionSort byRatingDesc

/-- Embedding of userService.banUser (firestore.ts 234-242): a partial
document update setting the banned flag, reason, ban timestamp, and forcibly
clearing verification; every field not named in the update is untouched. -/
def banUser (now : Nat) (reason : String) (u : UserDoc) : UserDoc :=
  { u with
    isBanned := some true
    banReason := some reason
    bannedAt := some now
    isVerified := some false }

/-- Embedding of userService.unbanUser (firestore.ts 244-251): sets the
banned flag to false and nulls the reason and timestamp; no other field is
named in the update, so verification state is left as it was. -/
def unbanUser (u : UserDoc) : UserDoc :=
  { u with
    isBanned := some false
    banReason := none
    bannedAt := none }

/-! ### Ratings (ratingService, firestore.ts 567-609) -/

/-- A rating document as written by addRating: the spread of the caller's
rating data (fromUid/toUid/swapRequestId/rating/comment per the Rating type)
plus a server timestamp.  No field named ratedUserId is ever written; the
Option field below records that (none for every document addRating
produces). -/
structure RatingDoc where
  fromUid : String
  toUid : String
  swapRequestId : String
  rating : ℚ
  comment : Option String
  createdAt : Nat
  ratedUserId : Option String
deriving DecidableEq

/-- The caller-supplied rating data (Rating minus id and createdAt). -/
structure RatingInput where
  fromUid : String
  toUid : String
  swapRequestId : String
  rating : ℚ
  comment : Option String
deriving DecidableEq

/-- Descending creation-time order of getUserRatings' orderBy clause. -/
def ratingCreatedDesc (a b : RatingDoc) : Prop := b.createdAt ≤ a.createdAt

instance : DecidableRel ratingCreatedDesc :=
  fun a b => inferInstanceAs (Decidable (b.createdAt ≤ a.createdAt))

instance : IsTotal RatingDoc ratingCreatedDesc :=
  ⟨fun a b => le_total b.createdAt a.createdAt⟩

instance : IsTrans RatingDoc ratingCreatedDesc :=
  ⟨fun _ _ _ hab hbc => le_trans hbc hab⟩

/-- Embedding of ratingService.getUserRatings (firestore.ts 582-594): the
ratings collection filtered by the equality constraint ratedUserId == userId
(a document without the field never matches), ordered by creation time
descending. -/
def getUserRatings (db : List RatingDoc) (userId : String) : List RatingDoc :=
  (db.filter (fun r => r.ratedUserId == some userId)).insertionSort ratingCreatedDesc

/-- Rounding to one decimal place: Math.round(x * 10) / 10, with Math.round
rounding half away from zero upward exactly as Mathlib's round does. -/
def roundTo1 (x : ℚ) : ℚ := ((round (x * 10) : ℤ) : ℚ) / 10

/-- Embedding of ratingService.updateUserRating (firestore.ts 597-608):
recompute the target's aggregate from getUserRatings; when that list is
empty nothing is written and the profile is returned unchanged. -/
def updateUserRating (db : List RatingDoc) (userId : String) (u : UserDoc) : UserDoc :=
  let ratings := getUserRatings db userId
  if 0 < ratings.length then
    { u with
      rating := some (roundTo1 ((ratings.map (fun r => r.rating)).sum / (ratings.length : ℚ)))
      reviewCount := some ratings.length }
  else u

/-- The document addRating writes: the spread of the input plus createdAt.
A ratedUserId field is not among the written fields, hence none. -/
def insertedRating (now : Nat) (input : RatingInput) : RatingDoc :=
  { fromUid := input.fromUid
    toUid := input.toUid
    swapRequestId := input.swapRequestId
    rating := input.rating
    comment := input.comment
    createdAt := now
    ratedUserId := none }

/-- Embedding of ratingService.addRating (firestore.ts 569-579): insert the
rating document and then run updateUserRating for the target user over the
grown collection. -/
def addRating (db : List RatingDoc) (now : Nat) (input : RatingInput) (target : UserDoc) :
    List RatingDoc × UserDoc :=
  let db2 := db ++ [insertedRating now input]
  (db2, updateUserRating db2 input.toUid target)

/-! ### Swap requests (swapRequestService, firestore.ts 363-564) -/

/-- A swap request's skill field: either a bare skill id string or an
embedded full skill object, matching the typeof-string test in the source. -/
inductive SkillField where
  | byId (s : String)
  | full (sk : SkillDoc)
deriving DecidableEq

/-- A swap request document with the fields getUserSwapRequests touches. -/
structure SwapRequestDoc where
  id : String
  requesterId : String
  responderId : Option String
  offeredSkill : SkillField
  requestedSkill : SkillField
  status : String
  createdAt : Nat
  updatedAt : Nat
deriving DecidableEq

/-- The lazy skill resolution of firestore.ts 435-451 / 466-483: a bare id is
looked up in the skills collection and replaced by the full document when it
exists; a missing document leaves the bare id in place (the source only
overwrites inside skillDoc.exists()). -/
def resolveSkillField (skillsDb : List SkillDoc) : SkillField → SkillField
  | .byId s =>
    match skillsDb.find? (fun sk => sk.id == s) with
    | some sk => .full sk
    | none => .byId s
  | .full sk => .full sk

/-- Resolve both skill fields of one request. -/
def resolveRequestSkills (skillsDb : List SkillDoc) (r : SwapRequestDoc) : SwapRequestDoc :=
  { r with
    offeredSkill := resolveSkillField skillsDb r.offeredSkill
    requestedSkill := resolveSkillField skillsDb r.requestedSkill }

/-- The three fetch modes of getUserSwapRequests. -/
inductive SwapFetchMode where
  | incoming
  | outgoing
  | both
deriving DecidableEq

/-- Descending creation-time order used on every swap request result. -/
def swapCreatedDesc (a b : SwapRequestDoc) : Prop := b.createdAt ≤ a.createdAt

instance : DecidableRel swapCreatedDesc :=
  fun a b => inferInstanceAs (Decidable (b.createdAt ≤ a.createdAt))

instance : IsTotal SwapRequestDoc swapCreatedDesc :=
  ⟨fun a b => le_total b.createdAt a.createdAt⟩

instance : IsTrans SwapRequestDoc swapCreatedDesc :=
  ⟨fun _ _ _ hab hbc => le_trans hbc hab⟩

/-- The remote queries of getUserSwapRequests: incoming filters on
responderId == userId, outgoing on requesterId == userId, and the merged mode
concatenates incoming then outgoing. -/
def swapDocsFor (db : List SwapRequestDoc) (userId : String) :
    SwapFetchMode → List SwapRequestDoc
  | .incoming => db.filter (fun r => r.responderId == some userId)
  | .outgoing => db.filter (fun r => r.requesterId == userId)
  | .both =>
    db.filter (fun r => r.responderId == some userId) ++
      db.filter (fun r => r.requesterId == userId)

/-- Embedding of swapRequestService.getUserSwapRequests (firestore.ts
391-486): fetch the mode's documents, resolve bare skill ids on every
request, and sort by creation time descending. -/
def getUserSwapRequests (db : List SwapRequestDoc) (skillsDb : List SkillDoc)
    (userId : String) (mode : SwapFetchMode) : List SwapRequestDoc :=
  ((swapDocsFor db userId mode).map (resolveRequestSkills skillsDb)).insertionSort
    swapCreatedDesc

/-- A bare skill reference is resolvable in the given skills collection;
trivially true for an embedded object. -/
def skillRefOk (skillsDb : List SkillDoc) : SkillField → Bool
  | .byId s => skillsDb.any (fun sk => sk.id == s)
  | .full _ => true

/-! ### Conversations and unread counters (messageService 612-724,
enhancedMessageService 819-946) -/

/-- A conversation document.  The unreadCount field is the per-participant
counter map; it is Option-valued because the base createConversation never
writes it.  The map itself is a JS object, modelled as a partial function
from user id to counter. -/
structure ConversationDoc where
  participants : List String
  typ : Option String
  title : Option String
  swapRequestId : Option String
  lastMessage : Option (String × String)
  unreadCount : Option (String → Option Nat)

/-- Embedding of messageService.createConversation (firestore.ts 614-630):
the document holds participants, timestamps, a null last message, and the
optional swapRequestId — no type, title, or unreadCount field is written. -/
def messageService_createConversation (participants : List String)
    (swapRequestId : Option String) : ConversationDoc :=
  { participants := participants
    typ := none
    title := none
    swapRequestId := swapRequestId
    lastMessage := none
    unreadCount := none }

/-- The forEach loop of the enhanced createConversation seeding every
participant's unread counter at zero, in list order. -/
def zeroUnreadAux (l : List String) (acc : String → Option Nat) : String → Option Nat :=
  match l with
  | [] => acc
  | userId :: t => zeroUnreadAux t (fun k => if k = userId then some 0 else acc k)

/-- The unread counter map seeded by enhancedMessageService.createConversation. -/
def zeroUnread (participants : List String) : String → Option Nat :=
  zeroUnreadAux participants (fun _ => none)

/-- Embedding of enhancedMessageService.createConversation (firestore.ts
821-842): like the base variant but with the type field, optional title, and
an unreadCount map initialised to zero for every participant. -/
def enhancedMessageService_createConversation (participants : List String) (typ : String)
    (title swapRequestId : Option String) : ConversationDoc :=
  { participants := participants
    typ := some typ
    title := title
    swapRequestId := swapRequestId
    lastMessage := none
    unreadCount := some (zeroUnread participants) }

/-- The forEach loop of the enhanced sendMessage (firestore.ts 877-882):
walk the participants, skip the sender, and for everyone else overwrite their
entry with (current value or 0) + 1, reading from the map built so far. -/
def bumpUnreadAux (l : List String) (senderId : String) (acc : String → Option Nat) :
    String → Option Nat :=
  match l with
  | [] => acc
  | userId :: t =>
    bumpUnreadAux t senderId
      (if userId = senderId then acc
       else fun k => if k = userId then some ((acc userId).getD 0 + 1) else acc k)

/-- The unread-counter update applied by the enhanced sendMessage. -/
def bumpUnread (participants : List String) (senderId : String)
    (current : String → Option Nat) : String → Option Nat :=
  bumpUnreadAux participants senderId current

/-- A notification document as created by the enhanced sendMessage for each
non-sender participant (the remote-assigned messageId inside data is not
modelled). -/
structure NotificationDoc where
  userId : String
  typ : String
  title : String
  message : String
  conversationId : String
  read : Bool
  actionUrl : String
deriving DecidableEq

/-- The notification preview of firestore.ts 902: the first 50 characters of
the content with an ellipsis marker when longer. -/
def messagePreview (content : String) : String :=
  "You have a new message: " ++ (content.take 50) ++
    (if 50 < content.length then "..." else "")

/-- Embedding of enhancedMessageService.sendMessage (firestore.ts 845-911)
restricted to its conversation update and notification fan-out: read the
conversation's unreadCount (or an empty map when absent), increment every
non-sender participant's counter by one, overwrite the last-message summary,
and emit one notification per non-sender participant.  The message-document
insert itself is a fresh remote document and is not part of the claims. -/
def enhancedMessageService_sendMessage (conv : ConversationDoc) (conversationId : String)
    (senderId content : String) : ConversationDoc × List NotificationDoc :=
  let current := conv.unreadCount.getD (fun _ => none)
  let newUnread := bumpUnread conv.participants senderId current
  ({ conv with
      lastMessage := some (content, senderId)
      unreadCount := some newUnread },
   (conv.participants.filter (fun p => p != senderId)).map (fun p =>
     { userId := p
       typ := "new_message"
       title := "New Message"
       message := messagePreview content
       conversationId := conversationId
       read := false
       actionUrl := "/messages?conversation=" ++ conversationId }))

/-- Embedding of enhancedMessageService.markConversationAsRead (firestore.ts
914-946) restricted to the conversation update: copy the current unreadCount
(or an empty map when absent) and set the reader's entry to zero.  The batch
marking the individual message documents read does not touch the counter
map. -/
def enhancedMessageService_markConversationAsRead (conv : ConversationDoc)
    (userId : String) : ConversationDoc :=
  let current := conv.unreadCount.getD (fun _ => none)
  { conv with unreadCount := some (fun k => if k = userId then some 0 else current k) }

/-! ### Admin subscription payloads and the client store
(firestore.ts 263-304, useFirebaseStore.ts) -/

/-- An admin feed document (flagged content or system message); only the id
and the creation/report time matter to the embedded operations. -/
structure AdminDoc where
  id : String
  createdAt : Nat
deriving DecidableEq

/-- A JS value as it appears in the dynamically-typed subscription payload. -/
inductive JsVal where
  | arr (docs : List AdminDoc)
  | str (s : String)
deriving DecidableEq

/-- Descending creation-time order of the in-memory system-message sort
(firestore.ts 290-294). -/
def adminCreatedDesc (a b : AdminDoc) : Prop := b.createdAt ≤ a.createdAt

instance : DecidableRel adminCreatedDesc :=
  fun a b => inferInstanceAs (Decidable (b.createdAt ≤ a.createdAt))

instance : IsTotal AdminDoc adminCreatedDesc :=
  ⟨fun a b => le_total b.createdAt a.createdAt⟩

instance : IsTrans AdminDoc adminCreatedDesc :=
  ⟨fun _ _ _ hab hbc => le_trans hbc hab⟩

/-- The payload userService.subscribeToAdminData hands to its callback on a
flagged-content snapshot (firestore.ts 276-282): a JS object with a type tag
and the snapshot list under the key data. -/
def adminFlaggedPayload (docs : List AdminDoc) : List (String × JsVal) :=
  [("type", JsVal.str "flaggedContent"), ("data", JsVal.arr docs)]

/-- The payload for a system-messages snapshot (firestore.ts 284-297): same
shape, with the snapshot sorted newest-first in memory before delivery. -/
def adminSystemPayload (docs : List AdminDoc) : List (String × JsVal) :=
  [("type", JsVal.str "systemMessages"),
   ("data", JsVal.arr (docs.insertionSort adminCreatedDesc))]

/-- JS property access on a dynamic object: the value under the key, or
undefined (none) when the key is absent. -/
def jsGet (o : List (String × JsVal)) (k : String) : Option JsVal :=
  (o.find? (fun p => p.1 == k)).map (fun p => p.2)

/-- A message as cached by the store, with the fields the edit/delete actions
touch. -/
structure StoreMsg where
  id : String
  senderId : String
  content : String
  edited : Bool
deriving DecidableEq

/-- The slice of the Zustand store state the embedded actions touch:
per-conversation message buckets (a JS object keyed by conversation id),
the two admin cache slices (undefined-able, hence Option), and the single
error slot. -/
structure StoreState where
  messages : List (String × List StoreMsg)
  flaggedContent : Option JsVal
  systemMessages : Option JsVal
  error : Option String

/-- Embedding of the store's subscribeToAdminData callback
(useFirebaseStore.ts 614-618): it reads data.flaggedContent and
data.systemMessages off the received payload object and assigns both slices
unconditionally. -/
def storeOnAdminData (payload : List (String × JsVal)) (st : StoreState) : StoreState :=
  { st with
    flaggedContent := jsGet payload "flaggedContent"
    systemMessages := jsGet payload "systemMessages" }

/-- Update the first message with the given id in one bucket, setting content
and the edited flag (the in-place immer mutation of useFirebaseStore.ts
778-781). -/
def editFirstMessage : List StoreMsg → String → String → List StoreMsg
  | [], _, _ => []
  | m :: t, messageId, newContent =>
    if m.id = messageId then { m with content := newContent, edited := true } :: t
    else m :: editFirstMessage t messageId newContent

/-- The bucket scan of the store's editMessage (useFirebaseStore.ts 773-782):
Object.keys(...).find locates the first conversation bucket containing the
id and the first matching message there is mutated; when no bucket contains
the id the optional-chained lookup yields undefined and nothing changes. -/
def editMessageBuckets : List (String × List StoreMsg) → String → String →
    List (String × List StoreMsg)
  | [], _, _ => []
  | (k, msgs) :: t, messageId, newContent =>
    if msgs.any (fun m => m.id == messageId) then
      (k, editFirstMessage msgs messageId newContent) :: t
    else (k, msgs) :: editMessageBuckets t messageId newContent

/-- Embedding of the store's editMessage action (useFirebaseStore.ts 767-787)
on the success path: the error slot is reset to null at entry and the cache
patch above is applied. -/
def storeEditMessage (st : StoreState) (messageId newContent : String) : StoreState :=
  { st with
    error := none
    messages := editMessageBuckets st.messages messageId newContent }

/-- Embedding of the store's deleteMessage action (useFirebaseStore.ts
789-804) on the success path: every conversation bucket is filtered,
dropping messages with the given id. -/
def storeDeleteMessage (st : StoreState) (messageId : String) : StoreState :=
  { st with
    error := none
    messages := st.messages.map (fun b => (b.1, b.2.filter (fun m => m.id != messageId))) }

/-! ### Message reactions (enhancedMessageService, firestore.ts 949-1001) -/

/-- A per-message reaction entry, mirroring the MessageReaction type:
an emoji together with the ids of the users who reacted with it. -/
structure MessageReaction where
  emoji : String
  users : List String
deriving DecidableEq

/-- Embedding of enhancedMessageService.addMessageReaction (firestore.ts 949-976)
acting on a message's reactions list.  The source finds the first entry whose
emoji matches (findIndex), pushes the user id onto it only when absent, and
otherwise appends a fresh entry holding just this user; the recursion below
updates the first matching entry in place in exactly the same way. -/
def addMessageReaction : List MessageReaction → String → String → List MessageReaction
  | [], emoji, userId => [⟨emoji, [userId]⟩]
  | r :: rest, emoji, userId =>
    if r.emoji = emoji then
      (if userId ∈ r.users then r else { r with users := r.users ++ [userId] }) :: rest
    else
      r :: addMessageReaction rest emoji userId

/-- The map step of removeMessageReaction: entries carrying the emoji have the
user id stripped from their user list, other entries pass through. -/
def stripReaction (emoji userId : String) (r : MessageReaction) : MessageReaction :=
  if r.emoji = emoji then { r with users := r.users.filter (· != userId) } else r

/-- Embedding of enhancedMessageService.removeMessageReaction (firestore.ts
979-1001): map over the reactions stripping the user id from entries with the
given emoji, then drop every entry whose user list became empty
(the source's .filter keeping r.users.length > 0). -/
def removeMessageReaction (reactions : List MessageReaction) (emoji userId : String) :
    List MessageReaction :=
  (reactions.map (stripReaction emoji userId)).filter (fun r => !r.users.isEmpty)

/-! ### Concrete sample documents used by counterexamples and witnesses -/

/-- A user document with no ban or verification history. -/
def plainUser (uid : String) : UserDoc :=
  { id := uid
    displayName := none
    bio := none
    location := none
    rating := some 0
    reviewCount := some 0
    totalSwaps := some 0
    isVerified := none
    isBanned := none
    banReason := none
    bannedAt := none
    skillsOffered := []
    skillsWanted := [] }

/-- A banned user document. -/
def bannedUser (uid : String) : UserDoc :=
  { plainUser uid with isBanned := some true, banReason := some "spam", bannedAt := some 1 }

/-- A verified user document. -/
def verifiedUser (uid : String) : UserDoc :=
  { plainUser uid with isVerified := some true }

/-- A swap request whose offered skill is a bare id with no backing skill
document. -/
def ghostRequest : SwapRequestDoc :=
  { id := "r1"
    requesterId := "u"
    responderId := none
    offeredSkill := .byId "ghost"
    requestedSkill := .byId "ghost2"
    status := "pending"
    createdAt := 0
    updatedAt := 0 }

/-- A five-star rating input addressed to user u. -/
def fiveStarInput : RatingInput :=
  { fromUid := "a", toUid := "u", swapRequestId := "s1", rating := 5, comment := none }

/-- A sample flagged-content document. -/
def flaggedSample : AdminDoc := { id := "f1", createdAt := 5 }

/-- The admin slices of a freshly initialised store (both start as empty
arrays, and no error). -/
def initialAdminState : StoreState :=
  { messages := []
    flaggedContent := some (JsVal.arr [])
    systemMessages := some (JsVal.arr [])
    error := none }

end SkillSwap

namespace SkillSwap

/-! ## Helper lemmas -/

lemma removeMessageReaction_cons (r : MessageReaction) (t : List MessageReaction)
    (e u : String) :
    removeMessageReaction (r :: t) e u =
      if (!(stripReaction e u r).users.isEmpty) = true then
        stripReaction e u r :: removeMessageReaction t e u
      else removeMessageReaction t e u := by
  simp only [removeMessageReaction, List.map_cons, List.filter_cons]

lemma filter_ne_eq_self {l : List String} {u : String} (h : u ∉ l) :
    l.filter (· != u) = l := by
  induction l with
  | nil => rfl
  | cons a t ih =>
    have hau : (a != u) = true := by
      simp only [bne_iff_ne, ne_eq]
      exact fun hau => h (by simp [hau])
    rw [List.filter_cons, if_pos hau, ih (fun hu => h (by simp [hu]))]

lemma addMessageReaction_idem (rs : List MessageReaction) (e u : String) :
    addMessageReaction (addMessageReaction rs e u) e u = addMessageReaction rs e u := by
  induction rs with
  | nil => simp [addMessageReaction]
  | cons r t ih =>
    by_cases he : r.emoji = e
    · by_cases hu : u ∈ r.users
      · simp [addMessageReaction, he, hu]
      · simp [addMessageReaction, he, hu]
    · simp [addMessageReaction, he, ih]

lemma removeMessageReaction_noop (rs : List MessageReaction) (e u : String)
    (hInv : ∀ r ∈ rs, r.users ≠ [])
    (hNo : ∀ r ∈ rs, r.emoji = e → u ∉ r.users) :
    removeMessageReaction rs e u = rs := by
  induction rs with
  | nil => rfl
  | cons r t ih =>
    have hrn : r.users ≠ [] := hInv r (by simp)
    have hstrip : stripReaction e u r = r := by
      unfold stripReaction
      by_cases he : r.emoji = e
      · rw [if_pos he, filter_ne_eq_self (hNo r (by simp) he)]
      · rw [if_neg he]
    have hc : (!r.users.isEmpty) = true := by
      simpa [List.isEmpty_iff] using hrn
    have ht : removeMessageReaction t e u = t :=
      ih (fun x hx => hInv x (by simp [hx])) (fun x hx => hNo x (by simp [hx]))
    rw [removeMessageReaction_cons, hstrip, if_pos hc, ht]

lemma removeMessageReaction_prune (rs : List MessageReaction) (e u : String)
    (hInv : ∀ r ∈ rs, r.users ≠ []) :
    ((∃ r ∈ removeMessageReaction rs e u, r.emoji = e) ↔
      ∃ r ∈ rs, r.emoji = e ∧ r.users.filter (· != u) ≠ []) := by
  induction rs with
  | nil => simp [removeMessageReaction]
  | cons r t ih =>
    have ihx := ih (fun x hx => hInv x (by simp [hx]))
    rw [removeMessageReaction_cons]
    by_cases he : r.emoji = e
    · have hf : stripReaction e u r = { r with users := r.users.filter (· != u) } := by
        unfold stripReaction; rw [if_pos he]
      by_cases hemp : r.users.filter (· != u) = []
      · have hc : (!(stripReaction e u r).users.isEmpty) ≠ true := by
          rw [hf]; simp [hemp]
        rw [if_neg hc, ihx]
        constructor
        · intro ⟨x, hx, hxe, hxf⟩
          exact ⟨x, by simp [hx], hxe, hxf⟩
        · intro ⟨x, hx, hxe, hxf⟩
          rcases List.mem_cons.mp hx with hxr | hxt
          · exact absurd (hxr ▸ hxf) (by simp [hemp])
          · exact ⟨x, hxt, hxe, hxf⟩
      · have hc : (!(stripReaction e u r).users.isEmpty) = true := by
          rw [hf]; simpa [List.isEmpty_iff] using hemp
        rw [if_pos hc]
        constructor
        · intro _
          exact ⟨r, by simp, he, hemp⟩
        · intro _
          refine ⟨stripReaction e u r, by simp, ?_⟩
          rw [hf]
          exact he
    · have hrn : r.users ≠ [] := hInv r (by simp)
      have hstrip : stripReaction e u r = r := by
        unfold stripReaction; rw [if_neg he]
      have hc : (!(stripReaction e u r).users.isEmpty) = true := by
        rw [hstrip]; simpa [List.isEmpty_iff] using hrn
      rw [if_pos hc, hstrip]
      constructor
      · intro ⟨x, hx, hxe⟩
        rcases List.mem_cons.mp hx with hxr | hxt
        · exact absurd (hxr ▸ hxe) he
        · obtain ⟨y, hy, hyp⟩ := ihx.mp ⟨x, hxt, hxe⟩
          exact ⟨y, by simp [hy], hyp⟩
      · intro ⟨x, hx, hxp⟩
        rcases List.mem_cons.mp hx with hxr | hxt
        · exact absurd (hxr ▸ hxp.1) he
        · obtain ⟨y, hy, hye⟩ := ihx.mpr ⟨x, hxt, hxp⟩
          exact ⟨y, by simp [hy], hye⟩

lemma getUserRatings_all_missing (db : List RatingDoc) (userId : String)
    (h : ∀ r ∈ db, r.ratedUserId = none) : getUserRatings db userId = [] := by
  unfold getUserRatings
  have hf : db.filter (fun r => r.ratedUserId == some userId) = [] := by
    apply List.filter_eq_nil_iff.mpr
    intro r hr
    simp [h r hr]
  rw [hf]
  rfl

/-! ## Claim theorems -/

/-- C6: addMessageReaction is idempotent for every message reaction list,
emoji, and user (the user id is appended to an emoji's entry only if absent);
on any reaction state whose entries all have nonempty user sets (the invariant
both operations maintain), removeMessageReaction for a reaction the user never
added leaves the list unchanged, and an emoji's entry survives the removal
exactly when its user set remains nonempty after stripping the user. -/
theorem c6_reaction_algebra (rs : List MessageReaction) (e u : String) :
    addMessageReaction (addMessageReaction rs e u) e u = addMessageReaction rs e u ∧
    ((∀ r ∈ rs, r.users ≠ []) → (∀ r ∈ rs, r.emoji = e → u ∉ r.users) →
      removeMessageReaction rs e u = rs) ∧
    ((∀ r ∈ rs, r.users ≠ []) →
      ((∃ r ∈ removeMessageReaction rs e u, r.emoji = e) ↔
        ∃ r ∈ rs, r.emoji = e ∧ r.users.filter (· != u) ≠ [])) :=
  ⟨addMessageReaction_idem rs e u,
   removeMessageReaction_noop rs e u,
   removeMessageReaction_prune rs e u⟩

/-- Witness for C6 at a concrete reaction state: one entry for emoji x held by
user a; user b reacts twice, removes a reaction never added, and the entry
survives exactly because its user set stays nonempty. -/
theorem c6_reaction_algebra_witness :
    (addMessageReaction (addMessageReaction [⟨"x", ["a"]⟩] "x" "b") "x" "b" =
      addMessageReaction [⟨"x", ["a"]⟩] "x" "b") ∧
    removeMessageReaction [⟨"x", ["a"]⟩] "x" "b" = [⟨"x", ["a"]⟩] ∧
    ((∃ r ∈ removeMessageReaction [⟨"x", ["a"]⟩] "x" "b", r.emoji = "x") ↔
      ∃ r ∈ [(⟨"x", ["a"]⟩ : MessageReaction)], r.emoji = "x" ∧ r.users.filter (· != "b") ≠ []) :=
  ⟨(c6_reaction_algebra [⟨"x", ["a"]⟩] "x" "b").1,
   (c6_reaction_algebra [⟨"x", ["a"]⟩] "x" "b").2.1 (by decide) (by decide),
   (c6_reaction_algebra [⟨"x", ["a"]⟩] "x" "b").2.2 (by decide)⟩

/-- C8: for every user document, banUser sets the banned flag, records the
reason and a ban timestamp, and clears verification; unbanUser sets the
banned flag to false and nulls the reason and timestamp while leaving every
other field — in particular the verified flag — unchanged, so a user banned
after being verified stays unverified after an unban. -/
theorem c8_ban_unban_frame (u v : UserDoc) (reason : String) (now : Nat) :
    (banUser now reason u).isBanned = some true ∧
    (banUser now reason u).banReason = some reason ∧
    (banUser now reason u).bannedAt = some now ∧
    (banUser now reason u).isVerified = some false ∧
    (unbanUser v).isBanned = some false ∧
    (unbanUser v).banReason = none ∧
    (unbanUser v).bannedAt = none ∧
    (unbanUser v).isVerified = v.isVerified ∧
    (unbanUser v).id = v.id ∧
    (unbanUser v).displayName = v.displayName ∧
    (unbanUser v).bio = v.bio ∧
    (unbanUser v).location = v.location ∧
    (unbanUser v).rating = v.rating ∧
    (unbanUser v).reviewCount = v.reviewCount ∧
    (unbanUser v).totalSwaps = v.totalSwaps ∧
    (unbanUser v).skillsOffered = v.skillsOffered ∧
    (unbanUser v).skillsWanted = v.skillsWanted ∧
    (unbanUser (banUser now reason u)).isVerified = some false :=
  ⟨rfl, rfl, rfl, rfl, rfl, rfl, rfl, rfl, rfl, rfl, rfl, rfl, rfl, rfl, rfl, rfl, rfl, rfl⟩

/-- C3: the admin subscription's flagged-content push leaves the store's
flaggedContent slice undefined instead of the pushed snapshot, and a
system-messages push likewise leaves systemMessages undefined: the service
delivers a payload keyed type/data (firestore.ts 281, 296) while the store
callback reads the keys flaggedContent/systemMessages off it
(useFirebaseStore.ts 616), which do not exist.  A flagged push even clobbers
the sibling systemMessages slice with undefined. -/
theorem c3_admin_push_clobbers_cache :
    (storeOnAdminData (adminFlaggedPayload [flaggedSample]) initialAdminState).flaggedContent
        = none ∧
    (storeOnAdminData (adminFlaggedPayload [flaggedSample]) initialAdminState).flaggedContent
        ≠ some (JsVal.arr [flaggedSample]) ∧
    (storeOnAdminData (adminSystemPayload [flaggedSample]) initialAdminState).systemMessages
        = none ∧
    (storeOnAdminData (adminFlaggedPayload [flaggedSample]) initialAdminState).systemMessages
        = none := by
  refine ⟨rfl, ?_, rfl, rfl⟩
  simp [storeOnAdminData, adminFlaggedPayload, jsGet]

/-- C1: addRating never changes the target's persisted aggregate, because the
recomputation reads the ratings back through an equality filter on a field
named ratedUserId that addRating itself never writes (it writes toUid), so
the filtered list is always empty and updateUserRating skips the write.  On
any ratings collection consisting of addRating-produced documents the profile
comes back unchanged — not the rounded mean and count the claim requires. -/
theorem c1_addRating_never_recomputes (db : List RatingDoc) (now : Nat)
    (input : RatingInput) (target : UserDoc)
    (h : ∀ r ∈ db, r.ratedUserId = none) :
    (addRating db now input target).2 = target := by
  have hall : ∀ r ∈ db ++ [insertedRating now input], r.ratedUserId = none := by
    intro r hr
    rcases List.mem_append.mp hr with hdb | hnew
    · exact h r hdb
    · simp at hnew
      rw [hnew]
      rfl
  have hempty : getUserRatings (db ++ [insertedRating now input]) input.toUid = [] :=
    getUserRatings_all_missing _ _ hall
  show updateUserRating (db ++ [insertedRating now input]) input.toUid target = target
  unfold updateUserRating
  rw [hempty]
  simp

/-- Witness for C1 at the failing input: a single five-star rating addressed
to user u inserted into an empty ratings collection leaves u's profile at
rating 0 and reviewCount 0, where the claim requires mean 5.0 and count 1. -/
theorem c1_addRating_never_recomputes_witness :
    (addRating [] 0 fiveStarInput (plainUser "u")).2 = plainUser "u" ∧
    (plainUser "u").rating = some 0 ∧
    (plainUser "u").reviewCount = some 0 ∧
    ¬((addRating [] 0 fiveStarInput (plainUser "u")).2.rating = some 5 ∧
      (addRating [] 0 fiveStarInput (plainUser "u")).2.reviewCount = some 1) := by
  have hmain := c1_addRating_never_recomputes [] 0 fiveStarInput (plainUser "u")
    (by intro r hr; simp at hr)
  refine ⟨hmain, rfl, rfl, ?_⟩
  rw [hmain]
  intro ⟨h5, _⟩
  simp [plainUser] at h5

end SkillSwap

namespace SkillSwap

lemma zeroUnreadAux_mem (l : List String) (acc : String → Option Nat) (p : String)
    (h : p ∈ l ∨ acc p = some 0) : zeroUnreadAux l acc p = some 0 := by
  induction l generalizing acc with
  | nil =>
    rcases h with h | h
    · simp at h
    · simpa [zeroUnreadAux] using h
  | cons a t ih =>
    rw [zeroUnreadAux]
    apply ih
    rcases h with h | h
    · rcases List.mem_cons.mp h with rfl | ht
      · by_cases hpa : p ∈ t
        · left; exact hpa
        · right; simp
      · left; exact ht
    · by_cases hpa : p = a
      · right; simp [hpa]
      · right; simp [hpa, h]

/-- A conversation document used by concrete witnesses: three participants,
created without an unreadCount map. -/
def sampleConv : ConversationDoc :=
  { participants := ["a", "b", "c"]
    typ := some "group"
    title := none
    swapRequestId := none
    lastMessage := none
    unreadCount := none }

/-- C4 (amended): only the enhanced createConversation seeds the unreadCount
map, with an entry equal to zero for every participant; the base
createConversation writes no unreadCount field at all. -/
theorem c4_unread_seeding (participants : List String) (typ : String)
    (title swapRequestId : Option String) (p : String) (hp : p ∈ participants) :
    (enhancedMessageService_createConversation participants typ title
        swapRequestId).unreadCount = some (zeroUnread participants) ∧
    zeroUnread participants p = some 0 ∧
    (messageService_createConversation participants swapRequestId).unreadCount = none :=
  ⟨rfl, zeroUnreadAux_mem participants (fun _ => none) p (Or.inl hp), rfl⟩

/-- Counterexample for C4 as frozen: the base createConversation on
participants A and B produces a document with no unreadCount map, so it does
not contain a zero entry for every participant. -/
theorem c4_base_has_no_unread_map :
    (messageService_createConversation ["A", "B"] none).unreadCount = none ∧
    ¬ ∀ p ∈ ["A", "B"], ∃ f,
        (messageService_createConversation ["A", "B"] none).unreadCount = some f ∧
          f p = some 0 := by
  refine ⟨rfl, ?_⟩
  intro hall
  obtain ⟨f, hf, _⟩ := hall "A" (by simp)
  simp [messageService_createConversation] at hf

/-- Witness for C4 at a two-participant conversation. -/
theorem c4_unread_seeding_witness :
    (enhancedMessageService_createConversation ["a", "b"] "direct" none
        none).unreadCount = some (zeroUnread ["a", "b"]) ∧
    zeroUnread ["a", "b"] "a" = some 0 ∧
    (messageService_createConversation ["a", "b"] none).unreadCount = none :=
  c4_unread_seeding ["a", "b"] "direct" none none "a" (by decide)

/-- C2: for a conversation with distinct participants A, B, C, the enhanced
sendMessage from A yields an unreadCount map where B's and C's entries each
rose by exactly one (an absent entry reading as zero) and A's entry is
unchanged; markConversationAsRead by B writes a map whose entry for B is zero
and which agrees with the previous map at every other key. -/
theorem c2_unread_counters (conv conv2 : ConversationDoc) (cid A B C content : String)
    (hparts : conv.participants = [A, B, C]) (hAB : A ≠ B) (hAC : A ≠ C) (hBC : B ≠ C) :
    (∃ g, (enhancedMessageService_sendMessage conv cid A content).1.unreadCount = some g ∧
      g B = some (((conv.unreadCount.getD (fun _ => none)) B).getD 0 + 1) ∧
      g C = some (((conv.unreadCount.getD (fun _ => none)) C).getD 0 + 1) ∧
      g A = (conv.unreadCount.getD (fun _ => none)) A) ∧
    (∃ f, (enhancedMessageService_markConversationAsRead conv2 B).unreadCount = some f ∧
      f B = some 0 ∧
      ∀ k, k ≠ B → f k = (conv2.unreadCount.getD (fun _ => none)) k) := by
  constructor
  · refine ⟨bumpUnread conv.participants A (conv.unreadCount.getD (fun _ => none)),
      rfl, ?_, ?_, ?_⟩
    · rw [hparts]
      simp [bumpUnread, bumpUnreadAux, Ne.symm hAB, Ne.symm hAC, hBC]
    · rw [hparts]
      simp [bumpUnread, bumpUnreadAux, Ne.symm hAB, Ne.symm hAC, Ne.symm hBC]
    · rw [hparts]
      simp [bumpUnread, bumpUnreadAux, Ne.symm hAB, Ne.symm hAC, hAB, hAC]
  · refine ⟨_, rfl, by simp, ?_⟩
    intro k hk
    simp [hk]

/-- Witness for C2 on a concrete three-participant conversation with no prior
unread map: after a sends a message, b's and c's counters are 1 and a's entry
is still absent; marking as read by b zeroes b and touches nothing else. -/
theorem c2_unread_counters_witness :
    (∃ g, (enhancedMessageService_sendMessage sampleConv "cid" "a" "hi").1.unreadCount
          = some g ∧
      g "b" = some (((sampleConv.unreadCount.getD (fun _ => none)) "b").getD 0 + 1) ∧
      g "c" = some (((sampleConv.unreadCount.getD (fun _ => none)) "c").getD 0 + 1) ∧
      g "a" = (sampleConv.unreadCount.getD (fun _ => none)) "a") ∧
    (∃ f, (enhancedMessageService_markConversationAsRead sampleConv "b").unreadCount
          = some f ∧
      f "b" = some 0 ∧
      ∀ k, k ≠ "b" → f k = (sampleConv.unreadCount.getD (fun _ => none)) k) :=
  c2_unread_counters sampleConv sampleConv "cid" "a" "b" "c" "hi" rfl
    (by decide) (by decide) (by decide)

end SkillSwap

namespace SkillSwap

lemma anyId_false (msgs : List StoreMsg) (id : String)
    (h : ∀ m ∈ msgs, m.id ≠ id) : msgs.any (fun m => m.id == id) = false := by
  by_contra hc
  rw [Bool.not_eq_false, List.any_eq_true] at hc
  obtain ⟨m, hm, hmid⟩ := hc
  exact h m hm (by simpa using hmid)

lemma filterId_not_mem (msgs : List StoreMsg) (id : String)
    (h : ∀ m ∈ msgs, m.id ≠ id) : msgs.filter (fun m => m.id != id) = msgs := by
  induction msgs with
  | nil => rfl
  | cons m t ih =>
    have hm : (m.id != id) = true := by
      simp only [bne_iff_ne, ne_eq]
      exact h m (by simp)
    rw [List.filter_cons, if_pos hm, ih (fun x hx => h x (by simp [hx]))]

lemma editFirstMessage_not_mem (msgs : List StoreMsg) (id c : String)
    (h : ∀ m ∈ msgs, m.id ≠ id) : editFirstMessage msgs id c = msgs := by
  induction msgs with
  | nil => rfl
  | cons m t ih =>
    simp only [editFirstMessage]
    rw [if_neg (h m (by simp)), ih (fun x hx => h x (by simp [hx]))]

lemma editMessageBuckets_not_mem (bs : List (String × List StoreMsg)) (id c : String)
    (h : ∀ b ∈ bs, ∀ m ∈ b.2, m.id ≠ id) : editMessageBuckets bs id c = bs := by
  induction bs with
  | nil => rfl
  | cons b t ih =>
    obtain ⟨kb, msgs⟩ := b
    have hany : msgs.any (fun m => m.id == id) = false :=
      anyId_false msgs id (h (kb, msgs) (by simp))
    simp only [editMessageBuckets, hany, Bool.false_eq_true, if_false]
    rw [ih (fun x hx => h x (by simp [hx]))]

lemma mapFilter_not_mem (bs : List (String × List StoreMsg)) (id : String)
    (h : ∀ b ∈ bs, ∀ m ∈ b.2, m.id ≠ id) :
    bs.map (fun b => (b.1, b.2.filter (fun m => m.id != id))) = bs := by
  induction bs with
  | nil => rfl
  | cons b t ih =>
    obtain ⟨kb, msgs⟩ := b
    simp only [List.map_cons]
    rw [filterId_not_mem msgs id (h (kb, msgs) (by simp)),
      ih (fun x hx => h x (by simp [hx]))]

lemma editFirstMessage_append (m1 : List StoreMsg) (m : StoreMsg) (m2 : List StoreMsg)
    (id c : String) (h1 : ∀ x ∈ m1, x.id ≠ id) (hm : m.id = id) :
    editFirstMessage (m1 ++ m :: m2) id c =
      m1 ++ { m with content := c, edited := true } :: m2 := by
  induction m1 with
  | nil =>
    simp only [List.nil_append, editFirstMessage]
    rw [if_pos hm]
  | cons a t ih =>
    simp only [List.cons_append, editFirstMessage, List.append_eq]
    rw [if_neg (h1 a (by simp))]
    simp only [List.append_eq] at ih
    rw [ih (fun x hx => h1 x (by simp [hx]))]

lemma bucket_any_true (m1 : List StoreMsg) (m : StoreMsg) (m2 : List StoreMsg)
    (id : String) (hm : m.id = id) :
    ((m1 ++ m :: m2).any (fun x => x.id == id)) = true := by
  rw [List.any_eq_true]
  exact ⟨m, by simp, by simp [hm]⟩

lemma editMessageBuckets_found (pre : List (String × List StoreMsg)) (k : String)
    (m1 : List StoreMsg) (m : StoreMsg) (m2 : List StoreMsg)
    (post : List (String × List StoreMsg)) (id c : String)
    (hpre : ∀ b ∈ pre, ∀ x ∈ b.2, x.id ≠ id)
    (h1 : ∀ x ∈ m1, x.id ≠ id) (hm : m.id = id) :
    editMessageBuckets (pre ++ (k, m1 ++ m :: m2) :: post) id c =
      pre ++ (k, m1 ++ { m with content := c, edited := true } :: m2) :: post := by
  induction pre with
  | nil =>
    simp only [List.nil_append, editMessageBuckets]
    rw [if_pos (bucket_any_true m1 m m2 id hm),
      editFirstMessage_append m1 m m2 id c h1 hm]
  | cons b t ih =>
    obtain ⟨kb, msgs⟩ := b
    have hany : msgs.any (fun x => x.id == id) = false :=
      anyId_false msgs id (hpre (kb, msgs) (by simp))
    simp only [List.cons_append, editMessageBuckets, hany, Bool.false_eq_true, if_false,
      List.append_eq]
    simp only [List.append_eq] at ih
    rw [ih (fun x hx => hpre x (by simp [hx]))]

/-- A store state used by concrete witnesses: one cached conversation bucket
holding one message, and a leftover error from a previous action. -/
def sampleStore : StoreState :=
  { messages := [("c1", [⟨"m1", "a", "hello", false⟩])]
    flaggedContent := none
    systemMessages := none
    error := some "previous failure" }

/-- C9: when the message id is absent from every cached conversation bucket,
the store's editMessage and deleteMessage actions leave the messages cache
unchanged and finish with a clear error slot (a silent no-op); when the id
sits in some bucket, editMessage rewrites exactly that message's content and
edited flag and deleteMessage removes exactly that message, leaving every
other bucket and message identical. -/
theorem c9_edit_delete_cache (st : StoreState) (id c : String) :
    ((∀ b ∈ st.messages, ∀ m ∈ b.2, m.id ≠ id) →
      (storeEditMessage st id c).messages = st.messages ∧
      (storeDeleteMessage st id).messages = st.messages) ∧
    (storeEditMessage st id c).error = none ∧
    (storeDeleteMessage st id).error = none ∧
    (∀ pre k m1 m m2 post,
      st.messages = pre ++ (k, m1 ++ m :: m2) :: post →
      (∀ b ∈ pre, ∀ x ∈ b.2, x.id ≠ id) →
      (∀ x ∈ m1, x.id ≠ id) → m.id = id →
      (storeEditMessage st id c).messages =
        pre ++ (k, m1 ++ { m with content := c, edited := true } :: m2) :: post) ∧
    (∀ pre k m1 m m2 post,
      st.messages = pre ++ (k, m1 ++ m :: m2) :: post →
      (∀ b ∈ pre ++ post, ∀ x ∈ b.2, x.id ≠ id) →
      (∀ x ∈ m1 ++ m2, x.id ≠ id) → m.id = id →
      (storeDeleteMessage st id).messages = pre ++ (k, m1 ++ m2) :: post) := by
  refine ⟨?_, rfl, rfl, ?_, ?_⟩
  · intro h
    constructor
    · show editMessageBuckets st.messages id c = st.messages
      exact editMessageBuckets_not_mem st.messages id c h
    · show st.messages.map (fun b => (b.1, b.2.filter (fun m => m.id != id))) = st.messages
      exact mapFilter_not_mem st.messages id h
  · intro pre k m1 m m2 post hst hpre h1 hm
    show editMessageBuckets st.messages id c = _
    rw [hst]
    exact editMessageBuckets_found pre k m1 m m2 post id c hpre h1 hm
  · intro pre k m1 m m2 post hst hrest h12 hm
    show st.messages.map (fun b => (b.1, b.2.filter (fun m => m.id != id))) = _
    rw [hst, List.map_append, List.map_cons]
    have hpre : pre.map (fun b => (b.1, b.2.filter (fun m => m.id != id))) = pre :=
      mapFilter_not_mem pre id (fun b hb => hrest b (by simp [hb]))
    have hpost : post.map (fun b => (b.1, b.2.filter (fun m => m.id != id))) = post :=
      mapFilter_not_mem post id (fun b hb => hrest b (by simp [hb]))
    have hbucket : (m1 ++ m :: m2).filter (fun x => x.id != id) = m1 ++ m2 := by
      have hmf : (m.id != id) = false := by simp [hm]
      rw [List.filter_append, List.filter_cons, hmf,
        filterId_not_mem m1 id (fun x hx => h12 x (by simp [hx])),
        filterId_not_mem m2 id (fun x hx => h12 x (by simp [hx]))]
      simp
    rw [hpre, hpost, hbucket]

/-- Witness for C9 on a one-bucket cache: an unknown id is a silent no-op
with a cleared error slot, while the cached id m1 is edited in place and
deleted exactly. -/
theorem c9_edit_delete_cache_witness :
    ((storeEditMessage sampleStore "zz" "x").messages = sampleStore.messages ∧
      (storeDeleteMessage sampleStore "zz").messages = sampleStore.messages) ∧
    (storeEditMessage sampleStore "zz" "x").error = none ∧
    (storeDeleteMessage sampleStore "zz").error = none ∧
    (storeEditMessage sampleStore "m1" "x").messages =
      [("c1", [⟨"m1", "a", "x", true⟩])] ∧
    (storeDeleteMessage sampleStore "m1").messages = [("c1", [])] := by
  refine ⟨(c9_edit_delete_cache sampleStore "zz" "x").1 (by decide),
    (c9_edit_delete_cache sampleStore "zz" "x").2.1,
    (c9_edit_delete_cache sampleStore "zz" "x").2.2.1, ?_, ?_⟩
  · have h := (c9_edit_delete_cache sampleStore "m1" "x").2.2.2.1
      [] "c1" [] ⟨"m1", "a", "hello", false⟩ [] [] rfl (by decide) (by decide) rfl
    simpa using h
  · have h := (c9_edit_delete_cache sampleStore "m1" "x").2.2.2.2
      [] "c1" [] ⟨"m1", "a", "hello", false⟩ [] [] rfl (by decide) (by decide) rfl
    simpa using h

end SkillSwap

namespace SkillSwap

lemma swapDocsFor_subset (db : List SwapRequestDoc) (userId : String)
    (mode : SwapFetchMode) : ∀ r ∈ swapDocsFor db userId mode, r ∈ db := by
  intro r hr
  cases mode with
  | incoming => exact (List.mem_filter.mp hr).1
  | outgoing => exact (List.mem_filter.mp hr).1
  | both =>
    rcases List.mem_append.mp hr with h | h
    · exact (List.mem_filter.mp h).1
    · exact (List.mem_filter.mp h).1

lemma resolveSkillField_ok (skillsDb : List SkillDoc) (f : SkillField)
    (h : skillRefOk skillsDb f = true) :
    ∃ sk, resolveSkillField skillsDb f = SkillField.full sk := by
  cases f with
  | full sk => exact ⟨sk, rfl⟩
  | byId s =>
    unfold skillRefOk at h
    rw [List.any_eq_true] at h
    obtain ⟨sk, hsk, hid⟩ := h
    cases hfind : skillsDb.find? (fun x => x.id == s) with
    | some sk2 =>
      refine ⟨sk2, ?_⟩
      simp only [resolveSkillField]
      rw [hfind]
    | none =>
      exact absurd hid (List.find?_eq_none.mp hfind sk hsk)

/-- A skill document owned by user u. -/
def skillA : SkillDoc :=
  { id := "s1", userId := "u", typ := "offered", name := "JavaScript", categoryId := "tech" }

/-- A wanted-skill document owned by user u. -/
def skillB : SkillDoc :=
  { id := "s2", userId := "u", typ := "wanted", name := "Python", categoryId := "tech" }

/-- A swap request whose bare offered-skill id has a backing document. -/
def resolvableRequest : SwapRequestDoc :=
  { id := "r2"
    requesterId := "u"
    responderId := some "v"
    offeredSkill := .byId "s1"
    requestedSkill := .full skillA
    status := "pending"
    createdAt := 3
    updatedAt := 3 }

/-- Counterexample for C5 as frozen: a request whose offered skill is the
bare id ghost with no backing skill document is returned by
getUserSwapRequests with the bare id string still in place (the source only
replaces the field inside skillDoc.exists()). -/
theorem c5_bare_id_can_survive :
    (getUserSwapRequests [ghostRequest] [] "u" .outgoing).map (fun r => r.offeredSkill) =
      [SkillField.byId "ghost"] := by
  decide

/-- C5 (amended): every request returned by getUserSwapRequests — in
incoming, outgoing, or merged mode — carries full skill records in both skill
fields, provided every bare skill id stored on a request has a backing
document in the skills collection; a bare id whose document is missing is
returned unchanged. -/
theorem c5_skill_resolution (db : List SwapRequestDoc) (skillsDb : List SkillDoc)
    (userId : String) (mode : SwapFetchMode)
    (hoff : ∀ r ∈ db, skillRefOk skillsDb r.offeredSkill = true)
    (hreq : ∀ r ∈ db, skillRefOk skillsDb r.requestedSkill = true) :
    ∀ r ∈ getUserSwapRequests db skillsDb userId mode,
      (∃ sk, r.offeredSkill = SkillField.full sk) ∧
      (∃ sk, r.requestedSkill = SkillField.full sk) := by
  intro r hr
  simp only [getUserSwapRequests, List.mem_insertionSort, List.mem_map] at hr
  obtain ⟨d, hd, rfl⟩ := hr
  have hdb := swapDocsFor_subset db userId mode d hd
  exact ⟨resolveSkillField_ok skillsDb d.offeredSkill (hoff d hdb),
    resolveSkillField_ok skillsDb d.requestedSkill (hreq d hdb)⟩

/-- Witness for C5 on a request whose bare offered-skill id s1 has a backing
document: both returned fields are full records. -/
theorem c5_skill_resolution_witness :
    (∃ sk, (resolveRequestSkills [skillA] resolvableRequest).offeredSkill =
      SkillField.full sk) ∧
    (∃ sk, (resolveRequestSkills [skillA] resolvableRequest).requestedSkill =
      SkillField.full sk) :=
  c5_skill_resolution [resolvableRequest] [skillA] "u" .outgoing (by decide) (by decide)
    (resolveRequestSkills [skillA] resolvableRequest) (by decide)

/-- C7: with verifiedOnly set, searchUsers returns no banned user and no
unverified user, every returned user's offered and wanted skill lists are
exactly their skill documents split by the type field, and the result is
sorted by descending rating. -/
theorem c7_verified_search (page : List UserDoc) (skillsDb : List SkillDoc) :
    (∀ u ∈ searchUsers page skillsDb true,
      u.isBanned ≠ some true ∧
      u.isVerified = some true ∧
      u.skillsOffered = ((skillsDb.filter (fun s => s.userId == u.id)).filter
          (fun s => s.typ == "offered")) ∧
      u.skillsWanted = ((skillsDb.filter (fun s => s.userId == u.id)).filter
          (fun s => s.typ == "wanted"))) ∧
    List.Sorted byRatingDesc (searchUsers page skillsDb true) := by
  constructor
  · intro u hu
    simp only [searchUsers, List.mem_insertionSort, List.mem_map] at hu
    obtain ⟨v, hv, rfl⟩ := hu
    rw [List.mem_filter] at hv
    have hpred := hv.2
    simp only [Bool.not_true, Bool.false_or, Bool.and_eq_true, Bool.not_eq_true,
      beq_eq_false_iff_ne, ne_eq, beq_iff_eq] at hpred
    refine ⟨?_, ?_, rfl, rfl⟩
    · simpa [populateSkills] using hpred.1
    · simpa [populateSkills] using hpred.2
  · exact List.sorted_insertionSort byRatingDesc _

/-- Witness for C7: a verified user owning one offered and one wanted skill
is returned with both buckets populated, inside a descending-sorted list. -/
theorem c7_verified_search_witness :
    ((populateSkills [skillA, skillB] (verifiedUser "u")).isBanned ≠ some true ∧
      (populateSkills [skillA, skillB] (verifiedUser "u")).isVerified = some true ∧
      (populateSkills [skillA, skillB] (verifiedUser "u")).skillsOffered =
        (([skillA, skillB].filter
          (fun s => s.userId == (populateSkills [skillA, skillB]
            (verifiedUser "u")).id)).filter (fun s => s.typ == "offered")) ∧
      (populateSkills [skillA, skillB] (verifiedUser "u")).skillsWanted =
        (([skillA, skillB].filter
          (fun s => s.userId == (populateSkills [skillA, skillB]
            (verifiedUser "u")).id)).filter (fun s => s.typ == "wanted"))) ∧
    List.Sorted byRatingDesc (searchUsers [verifiedUser "u"] [skillA, skillB] true) :=
  ⟨(c7_verified_search [verifiedUser "u"] [skillA, skillB]).1
      (populateSkills [skillA, skillB] (verifiedUser "u")) (by decide),
   (c7_verified_search [verifiedUser "u"] [skillA, skillB]).2⟩

/-- C10: searchUsers drops banned users no matter what verifiedOnly is, so
searchAllUsers — which delegates with verifiedOnly false — never returns a
banned user, while searchAllUsersIncludingBanned does return banned users. -/
theorem c10_banned_always_excluded (page : List UserDoc) (skillsDb : List SkillDoc)
    (verifiedOnly : Bool) :
    (∀ u ∈ searchUsers page skillsDb verifiedOnly, u.isBanned ≠ some true) ∧
    searchAllUsers page skillsDb = searchUsers page skillsDb false ∧
    (∃ u ∈ searchAllUsersIncludingBanned [bannedUser "w"] skillsDb none none none,
      u.isBanned = some true) := by
  refine ⟨?_, rfl, ?_⟩
  · intro u hu
    simp only [searchUsers, List.mem_insertionSort, List.mem_map] at hu
    obtain ⟨v, hv, rfl⟩ := hu
    rw [List.mem_filter] at hv
    have hpred := hv.2
    simp only [Bool.and_eq_true, Bool.not_eq_true, beq_eq_false_iff_ne, ne_eq] at hpred
    simpa [populateSkills] using hpred.1
  · refine ⟨populateSkills skillsDb (bannedUser "w"), ?_, rfl⟩
    simp [searchAllUsersIncludingBanned]

end SkillSwap

namespace SkillSwap

/-- Witness for C10: an unbanned user survives searchUsers with verifiedOnly
false, searchAllUsers delegates there, and the banned-inclusive admin search
does return a banned user. -/
theorem c10_banned_always_excluded_witness :
    (populateSkills [] (plainUser "p")).isBanned ≠ some true ∧
    searchAllUsers [plainUser "p"] [] = searchUsers [plainUser "p"] [] false ∧
    (∃ u ∈ searchAllUsersIncludingBanned [bannedUser "w"] [] none none none,
      u.isBanned = some true) :=
  ⟨(c10_banned_always_excluded [plainUser "p"] [] false).1
      (populateSkills [] (plainUser "p")) (by decide),
   (c10_banned_always_excluded [plainUser "p"] [] false).2.1,
   (c10_banned_always_excluded [plainUser "p"] [] false).2.2⟩

end SkillSwap
